import Mathlib

/-!
Verification of the task-manager store (app.py): a shallow embedding of the
in-memory task collection, its mutation operations and its persistence layer,
together with theorems checking the documented properties.
-/

/-- A task record, mirroring the dictionaries held in the global list
`tareas` of app.py (fields: id, texto, completada, motivo, inhabilitada,
lista, tema). Ids are Python integers, so we use `Int`. -/
structure Tarea where
  id : Int
  texto : String
  completada : Bool
  motivo : String
  inhabilitada : Bool
  lista : String
  tema : String
deriving Repr, DecidableEq

/-- The global mutable state of app.py: the list `tareas` together with the
counter `ultimo_id`. -/
structure Store where
  tareas : List Tarea
  ultimo_id : Int
deriving Repr, DecidableEq

/-- The normalization `(t.get("lista", "general") or "general")` applied to a
list-name string that is known to be present: Python `or` replaces the empty
(falsy) string by "general". -/
def normLista (s : String) : String :=
  if s = "" then "general" else s

/-- Python `texto.strip()`: drops whitespace from both ends of the string
(modelled on the character list so that it evaluates inside the kernel). -/
def stripStr (s : String) : String :=
  ⟨((s.data.dropWhile Char.isWhitespace).reverse.dropWhile Char.isWhitespace).reverse⟩

/-- Python `max((t["id"] for t in tareas), default=0)`: the maximum id in the
collection, 0 when the collection is empty (a left fold of `max`). -/
def maxId (ts : List Tarea) : Int :=
  match ts with
  | [] => 0
  | t :: rest => rest.foldl (fun m u => max m u.id) t.id

/-- Embeds agregar_tarea(texto, lista) (app.py lines 93-114): increments
`ultimo_id`, normalizes the list name, appends a fresh task and returns it. -/
def agregar_tarea (s : Store) (texto : String) (lista : String) : Tarea × Store :=
  let nuevo_id := s.ultimo_id + 1
  let lista_normalizada := if lista = "" then "general" else lista
  let tarea : Tarea :=
    { id := nuevo_id, texto := texto, completada := false, motivo := "",
      inhabilitada := false, lista := lista_normalizada, tema := "" }
  (tarea, { tareas := s.tareas ++ [tarea], ultimo_id := nuevo_id })

/-- The loop body of `completar_tarea` (app.py lines 117-132): scan for the
first task with the given id; fail if it is disabled, otherwise set
`completada := true` and clear `motivo`. -/
def completarAux (i : Int) : List Tarea → Bool × List Tarea
  | [] => (false, [])
  | t :: ts =>
    if t.id = i then
      if t.inhabilitada then (false, t :: ts)
      else (true, { t with completada := true, motivo := "" } :: ts)
    else
      let r := completarAux i ts
      (r.1, t :: r.2)

/-- Embeds completar_tarea(tarea_id) on the store. -/
def completar_tarea (s : Store) (i : Int) : Bool × Store :=
  let r := completarAux i s.tareas
  (r.1, { tareas := r.2, ultimo_id := s.ultimo_id })

/-- The loop body of `marcar_incompleta` (app.py lines 135-147): scan for the
first task with the given id; fail if it is disabled, otherwise set
`completada := false` and store the reason. -/
def marcarAux (i : Int) (motivo : String) : List Tarea → Bool × List Tarea
  | [] => (false, [])
  | t :: ts =>
    if t.id = i then
      if t.inhabilitada then (false, t :: ts)
      else (true, { t with completada := false, motivo := motivo } :: ts)
    else
      let r := marcarAux i motivo ts
      (r.1, t :: r.2)

/-- Embeds marcar_incompleta(tarea_id, motivo) on the store. -/
def marcar_incompleta (s : Store) (i : Int) (motivo : String) : Bool × Store :=
  let r := marcarAux i motivo s.tareas
  (r.1, { tareas := r.2, ultimo_id := s.ultimo_id })

/-- The loop body of `borrar_tarea` (app.py lines 150-159): scan for the first
task with the given id and set `inhabilitada := true` unconditionally. -/
def borrarAux (i : Int) : List Tarea → Bool × List Tarea
  | [] => (false, [])
  | t :: ts =>
    if t.id = i then (true, { t with inhabilitada := true } :: ts)
    else
      let r := borrarAux i ts
      (r.1, t :: r.2)

/-- Embeds borrar_tarea(tarea_id) on the store. -/
def borrar_tarea (s : Store) (i : Int) : Bool × Store :=
  let r := borrarAux i s.tareas
  (r.1, { tareas := r.2, ultimo_id := s.ultimo_id })

/-- Embeds obtener_listas() (app.py lines 53-60): the distinct normalized list
names over all tasks, with "general" always added, sorted ascending. The
Python set is modelled by `dedup` (order is irrelevant once sorted). -/
def obtener_listas (s : Store) : List String :=
  List.insertionSort (· ≤ ·)
    (("general" :: s.tareas.map (fun t => normLista t.lista)).dedup)

/-- One row of the summary built by `construir_resumen_listas`. -/
structure Resumen where
  nombre : String
  total : Nat
  activas : Nat
  completadas : Nat
  tema : String
deriving Repr, DecidableEq

/-- Embeds construir_resumen_listas() (app.py lines 63-82): for each list name,
the total, active and completed counts over the tasks of that list, and the
first non-empty theme in storage order. -/
def construir_resumen_listas (s : Store) : List Resumen :=
  (obtener_listas s).map (fun nombre =>
    let tareas_de_lista := s.tareas.filter (fun t => normLista t.lista == nombre)
    { nombre := nombre
      total := tareas_de_lista.length
      activas := (tareas_de_lista.filter (fun t => !t.inhabilitada)).length
      completadas := (tareas_de_lista.filter (fun t => t.completada)).length
      tema := ((tareas_de_lista.find? (fun t => t.tema != "")).map Tarea.tema).getD "" })

/-- Embeds obtener_tema_lista(nombre_lista) (app.py lines 85-90). -/
def obtener_tema_lista (s : Store) (nombre_lista : String) : String :=
  let tareas_de_lista := s.tareas.filter (fun t => normLista t.lista == nombre_lista)
  ((tareas_de_lista.find? (fun t => t.tema != "")).map Tarea.tema).getD ""

/-- The filter used by `vista_tareas` (app.py lines 186-189): the tasks whose
normalized list name equals the given one, in storage order. -/
def tasksInList (s : Store) (nombre : String) : List Tarea :=
  s.tareas.filter (fun t => normLista t.lista == nombre)

/-- A task object as it sits in the persisted JSON document: every field
optional, since `cargar_tareas` fills defaults with `t.get(campo, defecto)`. -/
structure RawTarea where
  id : Option Int
  texto : Option String
  completada : Option Bool
  motivo : Option String
  inhabilitada : Option Bool
  lista : Option String
  tema : Option String
deriving Repr, DecidableEq

/-- Embeds guardar_tareas() (app.py lines 43-50): serializes the full collection;
every field of every task is written out. -/
def guardar_tareas (s : Store) : List RawTarea :=
  s.tareas.map (fun t =>
    { id := some t.id, texto := some t.texto, completada := some t.completada,
      motivo := some t.motivo, inhabilitada := some t.inhabilitada,
      lista := some t.lista, tema := some t.tema })

/-- Embeds cargar_tareas() (app.py lines 11-40): none stands for a missing or
unreadable file (empty store, counter 0); otherwise each record is rebuilt
with per-field defaults, the list name is normalized through `or "general"`,
and the counter is recomputed as the maximum loaded id (0 if none). -/
def cargar_tareas (datos : Option (List RawTarea)) : Store :=
  match datos with
  | none => { tareas := [], ultimo_id := 0 }
  | some ds =>
    let ts := ds.map (fun r =>
      ({ id := r.id.getD 0, texto := r.texto.getD "",
         completada := r.completada.getD false, motivo := r.motivo.getD "",
         inhabilitada := r.inhabilitada.getD false,
         lista := normLista (r.lista.getD "general"),
         tema := r.tema.getD "" } : Tarea))
    { tareas := ts, ultimo_id := maxId ts }

/-- Store effect of the route `ruta_agregar_tarea` (app.py lines 201-208):
the form text is stripped, and the add operation runs only when the stripped
text is non-empty. -/
def ruta_agregar_tarea (s : Store) (texto : String) (lista : String) : Store :=
  let texto_limpio := stripStr texto
  if texto_limpio = "" then s else (agregar_tarea s texto_limpio lista).2

/-- Store effect of the route `crear_lista` (app.py lines 232-236): it only
computes a redirect target; the store is untouched. -/
def crear_lista (s : Store) (_nombre : String) : Store := s

/-- Store effect of `renombrar_lista(lista_nombre)` (app.py lines 238-248):
the new name is stripped; no-op when it is empty or equals the old name;
otherwise every task whose normalized list name equals the old name gets the
new name written into its `lista` field. -/
def renombrar_lista (s : Store) (lista_nombre : String) (nuevo_nombre_form : String) : Store :=
  let nuevo_nombre := stripStr nuevo_nombre_form
  if nuevo_nombre = "" ∨ nuevo_nombre = lista_nombre then s
  else
    { tareas := s.tareas.map (fun t =>
        if normLista t.lista == lista_nombre then { t with lista := nuevo_nombre } else t),
      ultimo_id := s.ultimo_id }

/-- Store effect of `eliminar_lista(lista_nombre)` (app.py lines 250-266):
no-op for "general"; otherwise keeps exactly the tasks whose normalized list
name differs from the given one. -/
def eliminar_lista (s : Store) (lista_nombre : String) : Store :=
  if lista_nombre = "general" then s
  else
    { tareas := s.tareas.filter (fun t => !(normLista t.lista == lista_nombre)),
      ultimo_id := s.ultimo_id }

/-- Store effect of `actualizar_tema_lista(lista_nombre)` (app.py lines
268-276): writes the stripped theme onto every task of the list. -/
def actualizar_tema_lista (s : Store) (lista_nombre : String) (tema_form : String) : Store :=
  let nuevo_tema := stripStr tema_form
  { tareas := s.tareas.map (fun t =>
      if normLista t.lista == lista_nombre then { t with tema := nuevo_tema } else t),
    ultimo_id := s.ultimo_id }

/-- A sequence of `agregar_tarea` calls, each given as (texto, lista). -/
def agregarSeq (s : Store) : List (String × String) → Store
  | [] => s
  | c :: cs => agregarSeq (agregar_tarea s c.1 c.2).2 cs

/-- The ids assigned by a sequence of `agregar_tarea` calls, in creation
order. -/
def assignedIds (s : Store) : List (String × String) → List Int
  | [] => []
  | c :: cs => (agregar_tarea s c.1 c.2).1.id :: assignedIds (agregar_tarea s c.1 c.2).2 cs

lemma le_foldl_max (ts : List Tarea) (m : Int) :
    m ≤ ts.foldl (fun a u => max a u.id) m := by
  induction ts generalizing m with
  | nil => exact le_refl m
  | cons t ts ih =>
    calc m ≤ max m t.id := le_max_left _ _
    _ ≤ ts.foldl (fun a u => max a u.id) (max m t.id) := ih _

lemma mem_le_foldl_max {t : Tarea} {ts : List Tarea} (ht : t ∈ ts) (m : Int) :
    t.id ≤ ts.foldl (fun a u => max a u.id) m := by
  induction ts generalizing m with
  | nil => cases ht
  | cons u ts ih =>
    rcases List.mem_cons.mp ht with h | h
    · subst h
      calc t.id ≤ max m t.id := le_max_right _ _
      _ ≤ ts.foldl (fun a u => max a u.id) (max m t.id) := le_foldl_max _ _
    · exact ih h _

lemma mem_le_maxId {t : Tarea} {ts : List Tarea} (ht : t ∈ ts) : t.id ≤ maxId ts := by
  cases ts with
  | nil => cases ht
  | cons u ts =>
    rcases List.mem_cons.mp ht with h | h
    · subst h
      exact le_foldl_max _ _
    · exact mem_le_foldl_max h _

lemma assignedIds_eq (s : Store) (cs : List (String × String)) :
    assignedIds s cs = (List.range cs.length).map (fun k : Nat => s.ultimo_id + 1 + (k : Int)) := by
  induction cs generalizing s with
  | nil => rfl
  | cons c cs ih =>
    simp only [assignedIds, agregar_tarea, List.length_cons, List.range_succ_eq_map,
      List.map_cons, List.map_map, ih]
    congr 1
    · simp
    · apply List.map_congr_left
      intro k _
      simp only [Function.comp_apply]
      push_cast
      ring

lemma agregarSeq_ids (s : Store) (cs : List (String × String)) :
    (agregarSeq s cs).tareas.map Tarea.id = s.tareas.map Tarea.id ++ assignedIds s cs := by
  induction cs generalizing s with
  | nil => simp [agregarSeq, assignedIds]
  | cons c cs ih =>
    simp only [agregarSeq, assignedIds, ih, agregar_tarea]
    simp

/-- C1: starting from a state whose counter equals the maximum existing id,
any sequence of `agregar_tarea` calls assigns pairwise strictly increasing
ids, never equal to a pre-existing id, and appends them in creation order. -/
theorem C1_add_ids (s : Store) (cs : List (String × String))
    (h : s.ultimo_id = maxId s.tareas) :
    (assignedIds s cs).Pairwise (· < ·) ∧
    (assignedIds s cs).Nodup ∧
    (∀ a ∈ assignedIds s cs, ∀ t ∈ s.tareas, t.id ≠ a) ∧
    (agregarSeq s cs).tareas.map Tarea.id = s.tareas.map Tarea.id ++ assignedIds s cs := by
  have hpair : (assignedIds s cs).Pairwise (· < ·) := by
    rw [assignedIds_eq]
    rw [List.pairwise_map]
    apply (List.pairwise_lt_range cs.length).imp
    intro a b hab
    have : (a : Int) < (b : Int) := by exact_mod_cast hab
    omega
  refine ⟨hpair, hpair.imp ne_of_lt, ?_, agregarSeq_ids s cs⟩
  intro a ha t ht
  have hta : t.id ≤ s.ultimo_id := h ▸ mem_le_maxId ht
  rw [assignedIds_eq] at ha
  rcases List.mem_map.mp ha with ⟨k, _, hk⟩
  have hk0 : (0 : Int) ≤ (k : Int) := Int.natCast_nonneg k
  omega

/-- Witness for C1 at a concrete store and call sequence. -/
theorem C1_add_ids_witness :
    (0 : Int) = maxId [] ∧
    ((assignedIds { tareas := [], ultimo_id := 0 } [("a", "general"), ("b", "work")]).Pairwise (· < ·) ∧
     (assignedIds { tareas := [], ultimo_id := 0 } [("a", "general"), ("b", "work")]).Nodup ∧
     (∀ a ∈ assignedIds { tareas := [], ultimo_id := 0 } [("a", "general"), ("b", "work")],
        ∀ t ∈ ({ tareas := [], ultimo_id := 0 } : Store).tareas, t.id ≠ a) ∧
     (agregarSeq { tareas := [], ultimo_id := 0 } [("a", "general"), ("b", "work")]).tareas.map Tarea.id =
       ({ tareas := [], ultimo_id := 0 } : Store).tareas.map Tarea.id ++
         assignedIds { tareas := [], ultimo_id := 0 } [("a", "general"), ("b", "work")]) :=
  ⟨rfl, C1_add_ids { tareas := [], ultimo_id := 0 } [("a", "general"), ("b", "work")] rfl⟩

lemma completarAux_disabled {i : Int} {ts : List Tarea}
    (h : ∀ t ∈ ts, t.id = i → t.inhabilitada = true) :
    completarAux i ts = (false, ts) := by
  induction ts with
  | nil => rfl
  | cons t ts ih =>
    by_cases hid : t.id = i
    · have hdis := h t (List.mem_cons_self t ts) hid
      simp [completarAux, hid, hdis]
    · have h' : ∀ u ∈ ts, u.id = i → u.inhabilitada = true :=
        fun u hu => h u (List.mem_cons_of_mem t hu)
      simp [completarAux, hid, ih h']

lemma marcarAux_disabled {i : Int} {R : String} {ts : List Tarea}
    (h : ∀ t ∈ ts, t.id = i → t.inhabilitada = true) :
    marcarAux i R ts = (false, ts) := by
  induction ts with
  | nil => rfl
  | cons t ts ih =>
    by_cases hid : t.id = i
    · have hdis := h t (List.mem_cons_self t ts) hid
      simp [marcarAux, hid, hdis]
    · have h' : ∀ u ∈ ts, u.id = i → u.inhabilitada = true :=
        fun u hu => h u (List.mem_cons_of_mem t hu)
      simp [marcarAux, hid, ih h']

lemma borrarAux_disabled {i : Int} {ts : List Tarea}
    (h : ∀ t ∈ ts, t.id = i → t.inhabilitada = true) :
    borrarAux i ts = (ts.any (fun t => t.id == i), ts) := by
  induction ts with
  | nil => rfl
  | cons t ts ih =>
    by_cases hid : t.id = i
    · have hdis := h t (List.mem_cons_self t ts) hid
      have heq : ({ t with inhabilitada := true } : Tarea) = t := by
        cases t
        simp_all
      subst hid
      simp [borrarAux, heq, List.any_cons]
    · have h' : ∀ u ∈ ts, u.id = i → u.inhabilitada = true :=
        fun u hu => h u (List.mem_cons_of_mem t hu)
      simp [borrarAux, hid, ih h', List.any_cons]

/-- A disabled task used as concrete input. -/
def tareaInhabilitada : Tarea :=
  { id := 1, texto := "x", completada := false, motivo := "",
    inhabilitada := true, lista := "general", tema := "" }

/-- A store holding a single disabled task with id 1. -/
def storeInhabilitada : Store := { tareas := [tareaInhabilitada], ultimo_id := 1 }

/-- C2 counterexample: on a store whose only task (id 1) is disabled,
`borrar_tarea 1` returns success, not the failure the claim asserts for
every mutation on the id of a disabled task. -/
theorem C2_borrar_counterexample :
    (∀ t ∈ storeInhabilitada.tareas, t.id = 1 → t.inhabilitada = true) ∧
    (borrar_tarea storeInhabilitada 1).1 = true := by decide

/-- C2 amended: when every task carrying the given id is disabled,
`completar_tarea` and `marcar_incompleta` fail and leave the store
unchanged; `borrar_tarea` also leaves the store unchanged (it rewrites the
already-true disabled flag) but returns success whenever such a task
exists. -/
theorem C2_disabled_mutations (s : Store) (i : Int) (R : String)
    (h : ∀ t ∈ s.tareas, t.id = i → t.inhabilitada = true) :
    completar_tarea s i = (false, s) ∧
    marcar_incompleta s i R = (false, s) ∧
    (borrar_tarea s i).2 = s ∧
    (borrar_tarea s i).1 = s.tareas.any (fun t => t.id == i) := by
  simp only [completar_tarea, marcar_incompleta, borrar_tarea,
    completarAux_disabled h, marcarAux_disabled h, borrarAux_disabled h]
  exact ⟨trivial, trivial, trivial, trivial⟩

/-- Witness for C2 amended at the concrete disabled-task store. -/
theorem C2_disabled_mutations_witness :
    (∀ t ∈ storeInhabilitada.tareas, t.id = 1 → t.inhabilitada = true) ∧
    (completar_tarea storeInhabilitada 1 = (false, storeInhabilitada) ∧
     marcar_incompleta storeInhabilitada 1 "r" = (false, storeInhabilitada) ∧
     (borrar_tarea storeInhabilitada 1).2 = storeInhabilitada ∧
     (borrar_tarea storeInhabilitada 1).1 = storeInhabilitada.tareas.any (fun t => t.id == 1)) :=
  ⟨by decide, C2_disabled_mutations storeInhabilitada 1 "r" (by decide)⟩

lemma completar_then_marcar_aux {i : Int} (R : String) {ts : List Tarea}
    (h1 : ∃ t ∈ ts, t.id = i)
    (h2 : ∀ t ∈ ts, t.id = i → t.inhabilitada = false) :
    (completarAux i ts).1 = true ∧
    (marcarAux i R (completarAux i ts).2).1 = true ∧
    ∃ t, (marcarAux i R (completarAux i ts).2).2.find? (fun u => u.id == i) = some t ∧
      t.completada = false ∧ t.motivo = R := by
  induction ts with
  | nil => simp at h1
  | cons t ts ih =>
    by_cases hid : t.id = i
    · have hdis := h2 t (List.mem_cons_self t ts) hid
      subst hid
      refine ⟨?_, ?_, ⟨{ t with completada := false, motivo := R }, ?_, rfl, rfl⟩⟩ <;>
        simp [completarAux, marcarAux, hdis, List.find?_cons]
    · have h1' : ∃ u ∈ ts, u.id = i := by
        rcases h1 with ⟨u, hu, hui⟩
        rcases List.mem_cons.mp hu with h | h
        · exact absurd (h ▸ hui) hid
        · exact ⟨u, h, hui⟩
      have h2' : ∀ u ∈ ts, u.id = i → u.inhabilitada = false :=
        fun u hu => h2 u (List.mem_cons_of_mem t hu)
      have hbeq : (t.id == i) = false := by simpa using hid
      simpa [completarAux, marcarAux, hid, List.find?_cons, hbeq] using ih h1' h2'

lemma marcar_then_completar_aux {i : Int} (R : String) {ts : List Tarea}
    (h1 : ∃ t ∈ ts, t.id = i)
    (h2 : ∀ t ∈ ts, t.id = i → t.inhabilitada = false) :
    (marcarAux i R ts).1 = true ∧
    (completarAux i (marcarAux i R ts).2).1 = true ∧
    ∃ t, (completarAux i (marcarAux i R ts).2).2.find? (fun u => u.id == i) = some t ∧
      t.completada = true ∧ t.motivo = "" := by
  induction ts with
  | nil => simp at h1
  | cons t ts ih =>
    by_cases hid : t.id = i
    · have hdis := h2 t (List.mem_cons_self t ts) hid
      subst hid
      refine ⟨?_, ?_, ⟨{ t with completada := true, motivo := "" }, ?_, rfl, rfl⟩⟩ <;>
        simp [completarAux, marcarAux, hdis, List.find?_cons]
    · have h1' : ∃ u ∈ ts, u.id = i := by
        rcases h1 with ⟨u, hu, hui⟩
        rcases List.mem_cons.mp hu with h | h
        · exact absurd (h ▸ hui) hid
        · exact ⟨u, h, hui⟩
      have h2' : ∀ u ∈ ts, u.id = i → u.inhabilitada = false :=
        fun u hu => h2 u (List.mem_cons_of_mem t hu)
      have hbeq : (t.id == i) = false := by simpa using hid
      simpa [completarAux, marcarAux, hid, List.find?_cons, hbeq] using ih h1' h2'

/-- C3: on a store where the tasks carrying the given id are present and not
disabled, complete-then-reopen(R) succeeds twice and leaves the task with
completada = false and motivo = R, and reopen(R)-then-complete succeeds twice
and leaves it with completada = true and motivo = "". -/
theorem C3_complete_reopen_inverse (s : Store) (i : Int) (R : String)
    (h1 : ∃ t ∈ s.tareas, t.id = i)
    (h2 : ∀ t ∈ s.tareas, t.id = i → t.inhabilitada = false) :
    ((completar_tarea s i).1 = true ∧
     (marcar_incompleta (completar_tarea s i).2 i R).1 = true ∧
     ∃ t, (marcar_incompleta (completar_tarea s i).2 i R).2.tareas.find?
         (fun u => u.id == i) = some t ∧
       t.completada = false ∧ t.motivo = R) ∧
    ((marcar_incompleta s i R).1 = true ∧
     (completar_tarea (marcar_incompleta s i R).2 i).1 = true ∧
     ∃ t, (completar_tarea (marcar_incompleta s i R).2 i).2.tareas.find?
         (fun u => u.id == i) = some t ∧
       t.completada = true ∧ t.motivo = "") := by
  constructor
  · simpa [completar_tarea, marcar_incompleta] using completar_then_marcar_aux R h1 h2
  · simpa [completar_tarea, marcar_incompleta] using marcar_then_completar_aux R h1 h2

/-- An active (not disabled) task with id 1. -/
def tareaActiva : Tarea :=
  { id := 1, texto := "buy milk", completada := false, motivo := "",
    inhabilitada := false, lista := "general", tema := "" }

/-- A store holding the single active task with id 1. -/
def storeActiva : Store := { tareas := [tareaActiva], ultimo_id := 1 }

/-- Witness for C3 at the concrete one-task store. -/
theorem C3_complete_reopen_inverse_witness :
    (∃ t ∈ storeActiva.tareas, t.id = 1) ∧
    (((completar_tarea storeActiva 1).1 = true ∧
      (marcar_incompleta (completar_tarea storeActiva 1).2 1 "not done").1 = true ∧
      ∃ t, (marcar_incompleta (completar_tarea storeActiva 1).2 1 "not done").2.tareas.find?
          (fun u => u.id == 1) = some t ∧
        t.completada = false ∧ t.motivo = "not done") ∧
     ((marcar_incompleta storeActiva 1 "not done").1 = true ∧
      (completar_tarea (marcar_incompleta storeActiva 1 "not done").2 1).1 = true ∧
      ∃ t, (completar_tarea (marcar_incompleta storeActiva 1 "not done").2 1).2.tareas.find?
          (fun u => u.id == 1) = some t ∧
        t.completada = true ∧ t.motivo = "")) :=
  ⟨⟨tareaActiva, by decide, by decide⟩,
   C3_complete_reopen_inverse storeActiva 1 "not done"
     ⟨tareaActiva, by decide, by decide⟩ (by decide)⟩

/-- The fields of a task that `completar_tarea` and `marcar_incompleta` may
never touch, together with full preservation of tasks carrying another id. -/
def FrameCompletar (i : Int) (t t' : Tarea) : Prop :=
  t'.id = t.id ∧ t'.texto = t.texto ∧ t'.lista = t.lista ∧ t'.tema = t.tema ∧
  t'.inhabilitada = t.inhabilitada ∧ (t.id ≠ i → t' = t)

/-- The fields of a task that `borrar_tarea` may never touch, together with
full preservation of tasks carrying another id. -/
def FrameBorrar (i : Int) (t t' : Tarea) : Prop :=
  t'.id = t.id ∧ t'.texto = t.texto ∧ t'.completada = t.completada ∧
  t'.motivo = t.motivo ∧ t'.lista = t.lista ∧ t'.tema = t.tema ∧ (t.id ≠ i → t' = t)

lemma completarAux_frame (i : Int) (ts : List Tarea) :
    List.Forall₂ (FrameCompletar i) ts (completarAux i ts).2 := by
  induction ts with
  | nil => exact List.Forall₂.nil
  | cons t ts ih =>
    have hrefl : List.Forall₂ (FrameCompletar i) ts ts :=
      List.forall₂_same.mpr (fun x _ => ⟨rfl, rfl, rfl, rfl, rfl, fun _ => rfl⟩)
    by_cases hid : t.id = i
    · by_cases hdis : t.inhabilitada
      · simp only [completarAux, if_pos hid, if_pos hdis]
        exact List.Forall₂.cons ⟨rfl, rfl, rfl, rfl, rfl, fun _ => rfl⟩ hrefl
      · simp only [completarAux, if_pos hid, if_neg hdis]
        exact List.Forall₂.cons ⟨rfl, rfl, rfl, rfl, rfl, fun h => absurd hid h⟩ hrefl
    · simp only [completarAux, if_neg hid]
      exact List.Forall₂.cons ⟨rfl, rfl, rfl, rfl, rfl, fun _ => rfl⟩ ih

lemma marcarAux_frame (i : Int) (R : String) (ts : List Tarea) :
    List.Forall₂ (FrameCompletar i) ts (marcarAux i R ts).2 := by
  induction ts with
  | nil => exact List.Forall₂.nil
  | cons t ts ih =>
    have hrefl : List.Forall₂ (FrameCompletar i) ts ts :=
      List.forall₂_same.mpr (fun x _ => ⟨rfl, rfl, rfl, rfl, rfl, fun _ => rfl⟩)
    by_cases hid : t.id = i
    · by_cases hdis : t.inhabilitada
      · simp only [marcarAux, if_pos hid, if_pos hdis]
        exact List.Forall₂.cons ⟨rfl, rfl, rfl, rfl, rfl, fun _ => rfl⟩ hrefl
      · simp only [marcarAux, if_pos hid, if_neg hdis]
        exact List.Forall₂.cons ⟨rfl, rfl, rfl, rfl, rfl, fun h => absurd hid h⟩ hrefl
    · simp only [marcarAux, if_neg hid]
      exact List.Forall₂.cons ⟨rfl, rfl, rfl, rfl, rfl, fun _ => rfl⟩ ih

lemma borrarAux_frame (i : Int) (ts : List Tarea) :
    List.Forall₂ (FrameBorrar i) ts (borrarAux i ts).2 := by
  induction ts with
  | nil => exact List.Forall₂.nil
  | cons t ts ih =>
    have hrefl : List.Forall₂ (FrameBorrar i) ts ts :=
      List.forall₂_same.mpr (fun x _ => ⟨rfl, rfl, rfl, rfl, rfl, rfl, fun _ => rfl⟩)
    by_cases hid : t.id = i
    · simp only [borrarAux, if_pos hid]
      exact List.Forall₂.cons ⟨rfl, rfl, rfl, rfl, rfl, rfl, fun h => absurd hid h⟩ hrefl
    · simp only [borrarAux, if_neg hid]
      exact List.Forall₂.cons ⟨rfl, rfl, rfl, rfl, rfl, rfl, fun _ => rfl⟩ ih

/-- C9: each single-task mutation keeps the counter, the length and the
order of the collection, touches at most its designated fields (never id,
text, list name or theme; `borrar_tarea` also never completion or reason),
and leaves every task carrying a different id fully unchanged. -/
theorem C9_mutation_frame (s : Store) (i : Int) (R : String) :
    ((completar_tarea s i).2.ultimo_id = s.ultimo_id ∧
     (completar_tarea s i).2.tareas.length = s.tareas.length ∧
     List.Forall₂ (FrameCompletar i) s.tareas (completar_tarea s i).2.tareas) ∧
    ((marcar_incompleta s i R).2.ultimo_id = s.ultimo_id ∧
     (marcar_incompleta s i R).2.tareas.length = s.tareas.length ∧
     List.Forall₂ (FrameCompletar i) s.tareas (marcar_incompleta s i R).2.tareas) ∧
    ((borrar_tarea s i).2.ultimo_id = s.ultimo_id ∧
     (borrar_tarea s i).2.tareas.length = s.tareas.length ∧
     List.Forall₂ (FrameBorrar i) s.tareas (borrar_tarea s i).2.tareas) := by
  refine ⟨⟨rfl, ?_, completarAux_frame i s.tareas⟩,
          ⟨rfl, ?_, marcarAux_frame i R s.tareas⟩,
          ⟨rfl, ?_, borrarAux_frame i s.tareas⟩⟩
  · exact ((completarAux_frame i s.tareas).length_eq).symm
  · exact ((marcarAux_frame i R s.tareas).length_eq).symm
  · exact ((borrarAux_frame i s.tareas).length_eq).symm

lemma normLista_eq_self {s : String} (h : s ≠ "") : normLista s = s := if_neg h

/-- C4: on a collection whose list names are normalized (never empty, as
every operation maintains), saving and reloading reproduces the identical
task list, the reloaded counter is the maximum id among the loaded tasks,
and a missing or unreadable file loads as the empty store. -/
theorem C4_save_load_roundtrip (s : Store) (h : ∀ t ∈ s.tareas, t.lista ≠ "") :
    cargar_tareas (some (guardar_tareas s)) =
      { tareas := s.tareas, ultimo_id := maxId s.tareas } ∧
    (cargar_tareas (some (guardar_tareas s))).ultimo_id =
      maxId (cargar_tareas (some (guardar_tareas s))).tareas ∧
    cargar_tareas none = { tareas := [], ultimo_id := 0 } := by
  refine ⟨?_, rfl, rfl⟩
  simp only [cargar_tareas, guardar_tareas, List.map_map]
  have hmap : s.tareas.map
      ((fun r : RawTarea =>
        ({ id := r.id.getD 0, texto := r.texto.getD "",
           completada := r.completada.getD false, motivo := r.motivo.getD "",
           inhabilitada := r.inhabilitada.getD false,
           lista := normLista (r.lista.getD "general"),
           tema := r.tema.getD "" } : Tarea)) ∘
       (fun t : Tarea =>
        ({ id := some t.id, texto := some t.texto, completada := some t.completada,
           motivo := some t.motivo, inhabilitada := some t.inhabilitada,
           lista := some t.lista, tema := some t.tema } : RawTarea))) = s.tareas := by
    conv_rhs => rw [← List.map_id s.tareas]
    apply List.map_congr_left
    intro t ht
    show ({ id := t.id, texto := t.texto, completada := t.completada,
            motivo := t.motivo, inhabilitada := t.inhabilitada,
            lista := normLista t.lista, tema := t.tema } : Tarea) = t
    rw [normLista_eq_self (h t ht)]
  rw [hmap]

/-- Witness for C4 at a concrete two-task store. -/
theorem C4_save_load_roundtrip_witness :
    (∀ t ∈ ({ tareas := [tareaActiva, tareaInhabilitada], ultimo_id := 7 } : Store).tareas,
       t.lista ≠ "") ∧
    (cargar_tareas (some (guardar_tareas
         { tareas := [tareaActiva, tareaInhabilitada], ultimo_id := 7 })) =
       { tareas := ({ tareas := [tareaActiva, tareaInhabilitada], ultimo_id := 7 } : Store).tareas,
         ultimo_id := maxId ({ tareas := [tareaActiva, tareaInhabilitada], ultimo_id := 7 } : Store).tareas } ∧
     (cargar_tareas (some (guardar_tareas
         { tareas := [tareaActiva, tareaInhabilitada], ultimo_id := 7 }))).ultimo_id =
       maxId (cargar_tareas (some (guardar_tareas
         { tareas := [tareaActiva, tareaInhabilitada], ultimo_id := 7 }))).tareas ∧
     cargar_tareas none = { tareas := [], ultimo_id := 0 }) :=
  ⟨by decide, C4_save_load_roundtrip
    { tareas := [tareaActiva, tareaInhabilitada], ultimo_id := 7 } (by decide)⟩

lemma filter_of_filter_not (l : List Tarea) (n : String) :
    (l.filter (fun t => !(normLista t.lista == n))).filter
      (fun t => normLista t.lista == n) = [] := by
  induction l with
  | nil => rfl
  | cons t l ih =>
    by_cases h : normLista t.lista = n <;> simp [List.filter_cons, h, ih]

lemma filter_of_filter_other (l : List Tarea) (n m : String) (hm : m ≠ n) :
    (l.filter (fun t => !(normLista t.lista == n))).filter
      (fun t => normLista t.lista == m) =
    l.filter (fun t => normLista t.lista == m) := by
  induction l with
  | nil => rfl
  | cons t l ih =>
    by_cases h : normLista t.lista = n
    · have hm2 : ¬ normLista t.lista = m := by
        rw [h]
        exact fun e => hm e.symm
      simp [List.filter_cons, h, hm2, ih, Ne.symm hm]
    · by_cases h2 : normLista t.lista = m <;> simp [List.filter_cons, h, h2, ih, hm]

/-- C5: deleting the list "general" is a no-op on the store; deleting any
other name removes exactly the tasks whose normalized list name equals it
(the task view of the name becomes empty, every task of another list survives in
order, nothing else is removed and the counter is kept). -/
theorem C5_delete_list (s : Store) (nombre : String) :
    (nombre = "general" → eliminar_lista s nombre = s) ∧
    (nombre ≠ "general" →
      (eliminar_lista s nombre).ultimo_id = s.ultimo_id ∧
      (eliminar_lista s nombre).tareas.Sublist s.tareas ∧
      tasksInList (eliminar_lista s nombre) nombre = [] ∧
      (∀ t ∈ (eliminar_lista s nombre).tareas, normLista t.lista ≠ nombre) ∧
      (∀ t ∈ s.tareas, normLista t.lista ≠ nombre → t ∈ (eliminar_lista s nombre).tareas) ∧
      (∀ m, m ≠ nombre → tasksInList (eliminar_lista s nombre) m = tasksInList s m)) := by
  constructor
  · intro h
    simp [eliminar_lista, h]
  · intro hn
    refine ⟨by simp [eliminar_lista, hn], ?_, ?_, ?_, ?_, ?_⟩
    · simp only [eliminar_lista, if_neg hn]
      exact List.filter_sublist _
    · simp only [tasksInList, eliminar_lista, if_neg hn]
      exact filter_of_filter_not s.tareas nombre
    · intro t ht
      simp only [eliminar_lista, if_neg hn, List.mem_filter] at ht
      simpa using ht.2
    · intro t ht hlista
      simp only [eliminar_lista, if_neg hn, List.mem_filter]
      exact ⟨ht, by simpa using hlista⟩
    · intro m hm
      simp only [tasksInList, eliminar_lista, if_neg hn]
      exact filter_of_filter_other s.tareas nombre m hm

/-- A completed task living in the list "work", with a theme set. -/
def tareaTrabajo : Tarea :=
  { id := 2, texto := "write report", completada := true, motivo := "",
    inhabilitada := false, lista := "work", tema := "Q1" }

/-- A store with one task in "general" and one in "work". -/
def storeDosListas : Store := { tareas := [tareaActiva, tareaTrabajo], ultimo_id := 2 }

/-- Witness for C5: both branches applied at the concrete two-list store. -/
theorem C5_delete_list_witness :
    eliminar_lista storeDosListas "general" = storeDosListas ∧
    ("work" ≠ "general" ∧
     tasksInList (eliminar_lista storeDosListas "work") "work" = []) :=
  ⟨(C5_delete_list storeDosListas "general").1 rfl,
   by decide,
   ((C5_delete_list storeDosListas "work").2 (by decide)).2.2.1⟩

/-- C7: a form text that strips to the empty string makes the add route skip
the add operation: the store is returned unchanged. -/
theorem C7_blank_text_rejected (s : Store) (texto lista : String)
    (h : stripStr texto = "") :
    ruta_agregar_tarea s texto lista = s := by
  simp [ruta_agregar_tarea, h]

/-- Witness for C7 on a whitespace-only form text. -/
theorem C7_blank_text_rejected_witness :
    stripStr "  " = "" ∧ ruta_agregar_tarea storeDosListas "  " "general" = storeDosListas :=
  ⟨by decide, C7_blank_text_rejected storeDosListas "  " "general" (by decide)⟩

lemma rename_map_beq_eq (l : List Tarea) (old nuevo : String) :
    l.map (fun t => if normLista t.lista == old then { t with lista := nuevo } else t) =
    l.map (fun t => if normLista t.lista = old then { t with lista := nuevo } else t) := by
  apply List.map_congr_left
  intro t _
  by_cases h : normLista t.lista = old <;> simp [h]

lemma rename_filter_old (l : List Tarea) (old nuevo : String)
    (h0 : nuevo ≠ "") (h1 : nuevo ≠ old) :
    (l.map (fun t => if normLista t.lista = old then { t with lista := nuevo } else t)).filter
      (fun t => normLista t.lista == old) = [] := by
  rw [List.filter_eq_nil_iff]
  intro a ha
  rcases List.mem_map.mp ha with ⟨t, _, rfl⟩
  by_cases h : normLista t.lista = old
  · simp [h, normLista_eq_self h0, h1]
  · simp [h]

lemma rename_filter_other (l : List Tarea) (old nuevo m : String)
    (h0 : nuevo ≠ "") (hm_old : m ≠ old) (hm_nuevo : m ≠ nuevo) :
    (l.map (fun t => if normLista t.lista = old then { t with lista := nuevo } else t)).filter
      (fun t => normLista t.lista == m) =
    l.filter (fun t => normLista t.lista == m) := by
  rw [List.filter_map]
  have hcongr : l.filter ((fun t => normLista t.lista == m) ∘
      (fun t => if normLista t.lista = old then { t with lista := nuevo } else t)) =
      l.filter (fun t => normLista t.lista == m) := by
    apply List.filter_congr
    intro t _
    by_cases h : normLista t.lista = old
    · simp [h, normLista_eq_self h0, Ne.symm hm_nuevo, Ne.symm hm_old]
    · simp [h]
  rw [hcongr]
  conv_rhs => rw [← List.map_id (l.filter (fun t => normLista t.lista == m))]
  apply List.map_congr_left
  intro t ht
  have hm2 : normLista t.lista = m := by simpa using (List.mem_filter.mp ht).2
  have hne : ¬ normLista t.lista = old := by
    rw [hm2]
    exact hm_old
  simp [hne]

lemma rename_mem_new (l : List Tarea) (old nuevo : String) (h0 : nuevo ≠ "")
    {t : Tarea} (ht : t ∈ l) (hold : normLista t.lista = old) :
    ({ t with lista := nuevo } : Tarea) ∈
      (l.map (fun t => if normLista t.lista = old then { t with lista := nuevo } else t)).filter
        (fun t => normLista t.lista == nuevo) := by
  rw [List.mem_filter]
  refine ⟨List.mem_map.mpr ⟨t, ht, by simp [hold]⟩, by simp [normLista_eq_self h0]⟩

/-- C8: renaming with a new name that strips to the empty string or to the
old name leaves the store unchanged; otherwise every task of the old list
gets exactly its list-name field replaced (everything else and the order
kept), the task view of the old name becomes empty, every unrelated list is
untouched, and the moved tasks all appear in the task view of the new name. -/
theorem C8_rename_list (s : Store) (old new : String) :
    (stripStr new = "" ∨ stripStr new = old → renombrar_lista s old new = s) ∧
    (stripStr new ≠ "" → stripStr new ≠ old →
      (renombrar_lista s old new).ultimo_id = s.ultimo_id ∧
      (renombrar_lista s old new).tareas =
        s.tareas.map (fun t =>
          if normLista t.lista = old then { t with lista := stripStr new } else t) ∧
      tasksInList (renombrar_lista s old new) old = [] ∧
      (∀ m, m ≠ old → m ≠ stripStr new →
        tasksInList (renombrar_lista s old new) m = tasksInList s m) ∧
      (∀ t ∈ tasksInList s old,
        ({ t with lista := stripStr new } : Tarea) ∈
          tasksInList (renombrar_lista s old new) (stripStr new))) := by
  constructor
  · intro h
    simp only [renombrar_lista, if_pos h]
  · intro h0 h1
    have hcond : ¬ (stripStr new = "" ∨ stripStr new = old) := by tauto
    refine ⟨by simp [renombrar_lista, hcond], ?_, ?_, ?_, ?_⟩
    · simp only [renombrar_lista, if_neg hcond]
      exact rename_map_beq_eq s.tareas old (stripStr new)
    · simp only [tasksInList, renombrar_lista, if_neg hcond]
      rw [rename_map_beq_eq]
      exact rename_filter_old s.tareas old (stripStr new) h0 h1
    · intro m hmo hmn
      simp only [tasksInList, renombrar_lista, if_neg hcond]
      rw [rename_map_beq_eq]
      exact rename_filter_other s.tareas old (stripStr new) m h0 hmo hmn
    · intro t ht
      simp only [tasksInList, List.mem_filter] at ht
      simp only [tasksInList, renombrar_lista, if_neg hcond]
      rw [rename_map_beq_eq]
      exact rename_mem_new s.tareas old (stripStr new) h0 ht.1 (by simpa using ht.2)

/-- Witness for C8: the no-op branch (blank new name) and the effective
branch (renaming "work" to "job") at the concrete two-list store. -/
theorem C8_rename_list_witness :
    renombrar_lista storeDosListas "work" "" = storeDosListas ∧
    tasksInList (renombrar_lista storeDosListas "work" "job") "work" = [] ∧
    (∀ t ∈ tasksInList storeDosListas "work",
      ({ t with lista := stripStr "job" } : Tarea) ∈
        tasksInList (renombrar_lista storeDosListas "work" "job") (stripStr "job")) :=
  ⟨(C8_rename_list storeDosListas "work" "").1 (Or.inl (by decide)),
   ((C8_rename_list storeDosListas "work" "job").2 (by decide) (by decide)).2.2.1,
   ((C8_rename_list storeDosListas "work" "job").2 (by decide) (by decide)).2.2.2.2⟩

lemma mem_obtener_listas (s : Store) (x : String) :
    x ∈ obtener_listas s ↔ x = "general" ∨ ∃ t ∈ s.tareas, normLista t.lista = x := by
  unfold obtener_listas
  rw [(List.perm_insertionSort _ _).mem_iff, List.mem_dedup, List.mem_cons]
  simp [List.mem_map]

/-- C10: the create-list route never mutates the store (same tasks, same
counter, nothing new persisted), and consequently every name other than
"general" shows up in the list overview only when some task carries it. -/
theorem C10_create_list_pure (s : Store) (nombre : String) :
    crear_lista s nombre = s ∧
    ∀ x ∈ obtener_listas s, x = "general" ∨ ∃ t ∈ s.tareas, normLista t.lista = x :=
  ⟨rfl, fun x hx => (mem_obtener_listas s x).mp hx⟩

/-- Witness for C10 at the concrete two-list store. -/
theorem C10_create_list_pure_witness :
    crear_lista storeDosListas "hobby" = storeDosListas :=
  (C10_create_list_pure storeDosListas "hobby").1

lemma find?_filter_comm (l : List Tarea) (q p : Tarea → Bool) :
    (l.filter q).find? p = l.find? (fun a => q a && p a) := by
  induction l with
  | nil => rfl
  | cons t l ih =>
    by_cases hq : q t
    · by_cases hp : p t <;> simp [List.filter_cons, List.find?_cons, hq, hp, ih]
    · simp [List.filter_cons, List.find?_cons, hq, ih]

/-- C6: the list overview always contains "general", contains exactly the
normalized list names carried by tasks (disabled ones included) plus
"general", is sorted ascending without duplicates; and each summary row
counts all tasks of its list, the not-disabled ones, the completed ones, and
shows the first non-empty theme in storage order. -/
theorem C6_list_names_summary (s : Store) :
    "general" ∈ obtener_listas s ∧
    (∀ x, x ∈ obtener_listas s ↔ x = "general" ∨ ∃ t ∈ s.tareas, normLista t.lista = x) ∧
    (obtener_listas s).Sorted (· ≤ ·) ∧
    (obtener_listas s).Nodup ∧
    (construir_resumen_listas s).map Resumen.nombre = obtener_listas s ∧
    (∀ r ∈ construir_resumen_listas s,
      r.total = (tasksInList s r.nombre).length ∧
      r.activas = (s.tareas.filter
        (fun t => !t.inhabilitada && (normLista t.lista == r.nombre))).length ∧
      r.completadas = (s.tareas.filter
        (fun t => t.completada && (normLista t.lista == r.nombre))).length ∧
      r.tema = ((s.tareas.find?
        (fun t => (normLista t.lista == r.nombre) && (t.tema != ""))).map Tarea.tema).getD "") := by
  refine ⟨(mem_obtener_listas s "general").mpr (Or.inl rfl),
    fun x => mem_obtener_listas s x, List.sorted_insertionSort _ _,
    ((List.perm_insertionSort _ _).nodup_iff).mpr (List.nodup_dedup _), ?_, ?_⟩
  · simp [construir_resumen_listas, List.map_map, Function.comp_def]
  · intro r hr
    rcases List.mem_map.mp hr with ⟨nombre, _, rfl⟩
    refine ⟨rfl, ?_, ?_, ?_⟩
    · show ((s.tareas.filter (fun t => normLista t.lista == nombre)).filter
        (fun t => !t.inhabilitada)).length = _
      rw [List.filter_filter]
    · show ((s.tareas.filter (fun t => normLista t.lista == nombre)).filter
        (fun t => t.completada)).length = _
      rw [List.filter_filter]
    · show (((s.tareas.filter (fun t => normLista t.lista == nombre)).find?
        (fun t => t.tema != "")).map Tarea.tema).getD "" = _
      rw [find?_filter_comm]

/-- Witness for C6 at the concrete two-list store. -/
theorem C6_list_names_summary_witness :
    "general" ∈ obtener_listas storeDosListas :=
  (C6_list_names_summary storeDosListas).1

/-- Witness for C9 at the concrete two-list store. -/
theorem C9_mutation_frame_witness :
    (completar_tarea storeDosListas 1).2.ultimo_id = storeDosListas.ultimo_id ∧
    List.Forall₂ (FrameBorrar 1) storeDosListas.tareas (borrar_tarea storeDosListas 1).2.tareas :=
  ⟨(C9_mutation_frame storeDosListas 1 "r").1.1,
   (C9_mutation_frame storeDosListas 1 "r").2.2.2.2⟩
